import Mathlib

/-!
# Verification of the `gametable` two-player game-table engine

This file is a shallow embedding, in Lean 4, of `src/gametable.py` from the
`game-theory-tools` repository: the `GameTable` class (payoff-matrix
construction, dominance analysis, Nash-equilibrium search, minimax
indifference system), together with the `RowIterator` / `ColumnIterator`
traversal objects.

Modelling conventions:
* Python dicts are modelled as insertion-ordered association lists
  (`dictSet` keeps the position of an existing key and appends new keys,
  exactly like CPython dicts).
* Python sets of result pairs are modelled as duplicate-free lists built
  with `setAdd` (insertion order); claims about sets only use membership
  and `Nodup`.
* Payoff functions are total functions `C → V`; the variant where a payoff
  function may raise is modelled separately with `Except`-valued payoff
  functions (`constructExc`).
* Numeric payoffs are an arbitrary linearly ordered type `V` (the Python
  code only compares payoffs with `max` / `min` in the analyses); the
  minimax solver additionally needs field structure and is stated over a
  `LinearOrderedField`.
-/

namespace GameTableModel

/-! ## Python dict model -/

/-- CPython dict assignment `d[k] = v`: replace in place when the key is
present (keeping its position), append otherwise. -/
def dictSet {K V : Type} [DecidableEq K] (d : List (K × V)) (k : K) (v : V) :
    List (K × V) :=
  if (d.map Prod.fst).contains k then
    d.map (fun p => if p.1 = k then (k, v) else p)
  else
    d ++ [(k, v)]

/-- CPython dict lookup `d[k]`, as an `Option` (the source raises `KeyError`
on a missing key). -/
def dictGet {K V : Type} [DecidableEq K] (d : List (K × V)) (k : K) : Option V :=
  (d.find? (fun p => p.1 = k)).map Prod.snd

/-! ## The `GameTable` state (attributes set by `__init__` / mutated by the
methods of the class) -/

/-- The attribute record of a `GameTable` instance.

`player1_mixing_ratios` / `player2_mixing_ratios` hold `None` until the
minimax branch of `construct` runs; the symbolic `linsolve` output stored
there by the source is modelled by the indifference-system definitions
further below (`payoff_expressions`, `full_mixing_ratios`). -/
structure GameTable (C V : Type) where
  player1_name : String
  player2_name : String
  calc_player1_payoff : C → C → V
  calc_player2_payoff : C → C → V
  choices : List C
  minimax : Bool
  player1_payoffs : List ((C × C) × V)
  player2_payoffs : List ((C × C) × V)
  player1_dominants : List C
  player2_dominants : List C
  player1_dominated : List C
  player2_dominated : List C
  nash_equilibria : List (C × C)
  player1_mixing_ratios : Option (List V)
  player2_mixing_ratios : Option (List V)

/-- Source `GameTable.__init__`: payoff dicts start empty, every analysis result
starts at its empty/`None` default. -/
def GameTable.init {C V : Type} (player1_name player2_name : String)
    (calc_player1_payoff calc_player2_payoff : C → C → V)
    (choices : List C) (minimax : Bool) : GameTable C V :=
  { player1_name := player1_name
    player2_name := player2_name
    calc_player1_payoff := calc_player1_payoff
    calc_player2_payoff := calc_player2_payoff
    choices := choices
    minimax := minimax
    player1_payoffs := []
    player2_payoffs := []
    player1_dominants := []
    player2_dominants := []
    player1_dominated := []
    player2_dominated := []
    nash_equilibria := []
    player1_mixing_ratios := none
    player2_mixing_ratios := none }

/-! ## Dominance analysis (`_find_dominants` and the two per-player
wrappers) -/

/-- Python `max` over a list (raises on an empty list, hence `Option`). -/
def pymax {V : Type} [LinearOrder V] : List V → Option V
  | [] => none
  | a :: l => some (l.foldl max a)

/-- Python `min` over a list (raises on an empty list, hence `Option`). -/
def pymin {V : Type} [LinearOrder V] : List V → Option V
  | [] => none
  | a :: l => some (l.foldl min a)

/-- Source `[index for index, value in enumerate(record_collection) if value ==
max_value]` with `max_value = cmp(record_collection)`; `useMin` selects the
`min` comparator (the `dominated=True` path). -/
def extremum_indices {V : Type} [LinearOrder V] (useMin : Bool) (col : List V) :
    List Nat :=
  ((col.enum.filter
    (fun p => some p.2 = (if useMin then pymin col else pymax col))).map Prod.fst)

/-- Source `GameTable._find_dominants`: per collection, the indices of the extreme
values; then the intersection across all collections; then the
corresponding choices.

The source intersects with `list(set(matching_indices) & set(indices))`,
whose element order CPython leaves to the hash table; the model keeps the
(ascending) order of the first collection's index list, which has the same
elements.  On an empty `record_collections` the source raises `IndexError`
(`max_indices[0]`); the model returns `[]`, a case unreachable from a
successfully built table. -/
def find_dominants {C V : Type} [LinearOrder V] (choices : List C)
    (record_collections : List (List V)) (useMin : Bool) : List C :=
  let max_indices := record_collections.map (extremum_indices useMin)
  let matching_indices :=
    match max_indices with
    | [] => []
    | first :: rest =>
      rest.foldl (fun acc (idxs : List Nat) =>
        acc.filter (fun i => idxs.contains i)) first
  matching_indices.filterMap (fun i => choices.get? i)

/-- The columns of player-1 payoffs that `_find_player1_dominants` collects
by traversing the table: `columns[j][i] = calc_player1_payoff(choices[i],
choices[j])` (each record recomputes its payoff from the payoff
functions). -/
def GameTable.player1_record_columns {C V : Type} (gt : GameTable C V) :
    List (List V) :=
  gt.choices.map (fun b => gt.choices.map (fun a => gt.calc_player1_payoff a b))

/-- The rows of player-2 payoffs that `_find_player2_dominants` collects:
`rows[i][j] = calc_player2_payoff(choices[j], choices[i])`. -/
def GameTable.player2_record_rows {C V : Type} (gt : GameTable C V) :
    List (List V) :=
  gt.choices.map (fun a => gt.choices.map (fun b => gt.calc_player2_payoff b a))

/-- Source `GameTable._find_player1_dominants` (with its `dominated` flag). -/
def GameTable.find_player1_dominants {C V : Type} [LinearOrder V]
    (gt : GameTable C V) (dominated : Bool) : List C :=
  find_dominants gt.choices gt.player1_record_columns dominated

/-- Source `GameTable._find_player2_dominants` (with its `dominated` flag). -/
def GameTable.find_player2_dominants {C V : Type} [LinearOrder V]
    (gt : GameTable C V) (dominated : Bool) : List C :=
  find_dominants gt.choices gt.player2_record_rows dominated

/-! ## Nash equilibrium search (`_find_nash_equilibria`) -/

/-- Python `set.add`: add the element unless already present. -/
def setAdd {A : Type} [DecidableEq A] (s : List A) (x : A) : List A :=
  if s.contains x then s else s ++ [x]

/-- Source `GameTable._find_nash_equilibria`: a cell joins the equilibrium set when
its player-1 payoff is the maximum of its column and its player-2 payoff is
the maximum of its row. -/
def GameTable.find_nash_equilibria {C V : Type} [DecidableEq C] [LinearOrder V]
    (gt : GameTable C V) : List (C × C) :=
  let columns := gt.player1_record_columns
  let rows := gt.player2_record_rows
  gt.choices.enum.foldl (fun acc ia =>
    gt.choices.enum.foldl (fun acc2 jb =>
      if some (gt.calc_player1_payoff ia.2 jb.2) = pymax (columns.getD jb.1 []) ∧
         some (gt.calc_player2_payoff jb.2 ia.2) = pymax (rows.getD ia.1 []) then
        setAdd acc2 (ia.2, jb.2)
      else acc2) acc) []

/-! ## Matrix construction (`construct`) -/

/-- The ordered pairs the two nested `for` loops of `construct` visit. -/
def buildPairs {C : Type} (cs : List C) : List (C × C) :=
  cs.flatMap (fun a => cs.map (fun b => (a, b)))

/-- The domain `construct` actually iterates over: the argument when it is a
non-empty (truthy) collection, the instance's configured `choices`
otherwise (`if not choices:`). -/
def GameTable.effective_choices {C V : Type} (gt : GameTable C V)
    (choicesArg : Option (List C)) : List C :=
  match choicesArg with
  | none => gt.choices
  | some l => if l.isEmpty then gt.choices else l

/-- Source `GameTable.construct(choices=None)`.

* `if not choices:` — a missing argument or an empty (falsy) collection
  falls back to the instance's configured `choices`.
* `self.player1_payoffs = {}` resets player 1's dict, but the source then
  writes `self.players2_payoffs = {}` — a stray attribute (typo), so player
  2's dict is **not** cleared; the model reproduces this faithfully.
* The analyses run on `self`, whose `choices` and payoff functions are not
  touched by `construct` (note they use `self.choices`, not the `choices`
  argument).
* When `minimax` is set the source additionally stores the `linsolve`
  output in the two mixing-ratio attributes; that symbolic call is modelled
  by the indifference-system definitions below and the mixing-ratio
  attributes are out of this function's modelled footprint. -/
def GameTable.construct {C V : Type} [DecidableEq C] [LinearOrder V]
    (gt : GameTable C V) (choicesArg : Option (List C)) : GameTable C V :=
  let cs := gt.effective_choices choicesArg
  let dicts := (buildPairs cs).foldl
    (fun (d : List ((C × C) × V) × List ((C × C) × V)) ab =>
      (dictSet d.1 (ab.1, ab.2) (gt.calc_player1_payoff ab.1 ab.2),
       dictSet d.2 (ab.2, ab.1) (gt.calc_player2_payoff ab.2 ab.1)))
    ([], gt.player2_payoffs)
  { gt with
    player1_payoffs := dicts.1
    player2_payoffs := dicts.2
    player1_dominants := gt.find_player1_dominants false
    player2_dominants := gt.find_player2_dominants false
    player1_dominated := gt.find_player1_dominants true
    player2_dominated := gt.find_player2_dominants true
    nash_equilibria := gt.find_nash_equilibria }

/-- Source `GameTable.index`: the payoff pair for a pair of player choices, read
from the two payoff dicts (player 2's dict is keyed with player 2's choice
first); `None` models the `KeyError` of a missing key. -/
def GameTable.index {C V : Type} [DecidableEq C] (gt : GameTable C V)
    (player1_choice player2_choice : C) : Option (V × V) :=
  match dictGet gt.player1_payoffs (player1_choice, player2_choice),
        dictGet gt.player2_payoffs (player2_choice, player1_choice) with
  | some v1, some v2 => some (v1, v2)
  | _, _ => none

/-! ## Table traversal (`RowIterator`, `ColumnIterator`, `TableRecord`) -/

/-- Python list subscription `l[i]` with an `int` index (negative indices
count from the end); `none` models `IndexError`. -/
def pyindex {A : Type} (l : List A) (i : Int) : Option A :=
  if 0 ≤ i then l.get? i.toNat
  else if i.natAbs ≤ l.length then l.get? (l.length - i.natAbs) else none

/-- A `TableRecord`: the per-cell snapshot built by `TableRecord.__init__`
(payoffs are recomputed from the payoff functions, not read from the
dicts). -/
structure TableRecord (C V : Type) where
  player1_name : String
  player2_name : String
  player1_payoff : V
  player2_payoff : V
  player1_choice : C
  player2_choice : C
  row : Int
  column : Int

/-- Source class `RowIterator`: the object returned by `GameTable.__iter__`; its only
cursor state is `current_row` (initially `-1`). -/
structure RowIterator (C V : Type) where
  game_table : GameTable C V
  current_row : Int

/-- Source `GameTable.__iter__`. -/
def GameTable.iter {C V : Type} (gt : GameTable C V) : RowIterator C V :=
  { game_table := gt, current_row := -1 }

/-- Source class `ColumnIterator`: the object returned by `RowIterator.__iter__`; it owns
its own row number, column cursor and remaining-choices iterator. -/
structure ColumnIterator (C V : Type) where
  game_table : GameTable C V
  current_row : Int
  current_column : Int
  player1_choice : C
  player2_choices : List C

/-- Source `RowIterator.__next__`: advance the cursor; `StopIteration` (here
`none`) exactly when the incremented cursor equals `len(choices)`.  The
"row" value a `for` loop receives is the iterator itself. -/
def RowIterator.next {C V : Type} (it : RowIterator C V) :
    Option (RowIterator C V) :=
  let r := it.current_row + 1
  if r = (it.game_table.choices.length : Int) then none
  else some { it with current_row := r }

/-- Source `RowIterator.__iter__`, i.e. `ColumnIterator(game_table, row)`.  The
`choices[row]` subscript raises `IndexError` for a row outside the list;
the model substitutes a default there — only in-range rows are reachable
through the iteration protocol. -/
def RowIterator.iter {C V : Type} [Inhabited C] (it : RowIterator C V) :
    ColumnIterator C V :=
  { game_table := it.game_table
    current_row := it.current_row
    current_column := -1
    player1_choice := (pyindex it.game_table.choices it.current_row).getD default
    player2_choices := it.game_table.choices }

/-- Source `ColumnIterator.__next__`: pop the next player-2 choice and build a
`TableRecord` (whose payoffs are fresh calls to the payoff functions);
`StopIteration` (here `none`) when the choices iterator is exhausted. -/
def ColumnIterator.next {C V : Type} (it : ColumnIterator C V) :
    Option (TableRecord C V × ColumnIterator C V) :=
  match it.player2_choices with
  | [] => none
  | b :: rest =>
    let col := it.current_column + 1
    some
      ({ player1_name := it.game_table.player1_name
         player2_name := it.game_table.player2_name
         player1_payoff := it.game_table.calc_player1_payoff it.player1_choice b
         player2_payoff := it.game_table.calc_player2_payoff b it.player1_choice
         player1_choice := it.player1_choice
         player2_choice := b
         row := it.current_row
         column := col },
       { it with current_column := col, player2_choices := rest })

/-- The records an inner `for record in row:` loop yields from a column
iterator state, by structural recursion on the remaining choices (the loop
ends at the iterator's `StopIteration`). -/
def collectFrom {C V : Type} (gt : GameTable C V) (row : Int) (a : C)
    (col : Int) : List C → List (TableRecord C V)
  | [] => []
  | b :: rest =>
    { player1_name := gt.player1_name
      player2_name := gt.player2_name
      player1_payoff := gt.calc_player1_payoff a b
      player2_payoff := gt.calc_player2_payoff b a
      player1_choice := a
      player2_choice := b
      row := row
      column := col + 1 } :: collectFrom gt row a (col + 1) rest

/-- All records a column iterator still yields. -/
def ColumnIterator.collect {C V : Type} (it : ColumnIterator C V) :
    List (TableRecord C V) :=
  collectFrom it.game_table it.current_row it.player1_choice it.current_column
    it.player2_choices

/-- The rows an outer `for row in table:` loop yields from a row iterator
state.  Python's `while True: next()` loop is modelled with explicit fuel;
`choices.length + 1` fuel is enough from the initial `-1` cursor. -/
def RowIterator.run {C V : Type} [Inhabited C] :
    RowIterator C V → Nat → List (List (TableRecord C V))
  | _, 0 => []
  | it, fuel + 1 =>
    match it.next with
    | none => []
    | some it2 => it2.iter.collect :: it2.run fuel

/-- The full two-level traversal `for row in table: for record in row:`. -/
def GameTable.table_rows {C V : Type} [Inhabited C] (gt : GameTable C V) :
    List (List (TableRecord C V)) :=
  gt.iter.run (gt.choices.length + 1)

/-- The record the traversal is specified to produce for row index `i`
(player-1 choice `a`) and column index `j` (player-2 choice `b`). -/
def mkRecordAt {C V : Type} (gt : GameTable C V) (a b : C) (i j : Int) :
    TableRecord C V :=
  { player1_name := gt.player1_name
    player2_name := gt.player2_name
    player1_payoff := gt.calc_player1_payoff a b
    player2_payoff := gt.calc_player2_payoff b a
    player1_choice := a
    player2_choice := b
    row := i
    column := j }

/-- Two column iterators advanced concurrently under an arbitrary
interleaving schedule (`true` steps the first, `false` the second); a step
on an exhausted iterator is a no-op.  Returns both output streams and both
final states. -/
def runSchedule {C V : Type} (s1 s2 : ColumnIterator C V) :
    List Bool →
      List (TableRecord C V) × List (TableRecord C V) ×
        ColumnIterator C V × ColumnIterator C V
  | [] => ([], [], s1, s2)
  | true :: sched =>
    match s1.next with
    | none => runSchedule s1 s2 sched
    | some (r, s1b) =>
      let res := runSchedule s1b s2 sched
      (r :: res.1, res.2.1, res.2.2)
  | false :: sched =>
    match s2.next with
    | none => runSchedule s1 s2 sched
    | some (r, s2b) =>
      let res := runSchedule s1 s2b sched
      (res.1, r :: res.2.1, res.2.2)

/-- Stepping `next` on a possibly already-exhausted row iterator. -/
def rowStepOpt {C V : Type} (s : Option (RowIterator C V)) :
    Option (RowIterator C V) :=
  s.bind RowIterator.next

/-- One interleaved step over a pair of row iterators: `true` advances the
first, `false` the second. -/
def rowPairStep {C V : Type}
    (p : Option (RowIterator C V) × Option (RowIterator C V)) (b : Bool) :
    Option (RowIterator C V) × Option (RowIterator C V) :=
  if b then (rowStepOpt p.1, p.2) else (p.1, rowStepOpt p.2)

/-! ## `construct` with payoff functions that may raise -/

/-- The build loop of `construct` when the payoff functions may raise
(`Except`): the right-hand side of each dict assignment is evaluated before
the assignment, the loop stops at the first exception, which is returned
(it propagates unmodified), and both dicts keep every assignment executed
before it. -/
def buildPayoffsExc {C V E : Type} [DecidableEq C]
    (calc1 calc2 : C → C → Except E V) :
    List (C × C) → List ((C × C) × V) → List ((C × C) × V) →
      List ((C × C) × V) × List ((C × C) × V) × Option E
  | [], d1, d2 => (d1, d2, none)
  | ab :: rest, d1, d2 =>
    match calc1 ab.1 ab.2 with
    | .error e => (d1, d2, some e)
    | .ok v1 =>
      match calc2 ab.2 ab.1 with
      | .error e => (dictSet d1 (ab.1, ab.2) v1, d2, some e)
      | .ok v2 =>
        buildPayoffsExc calc1 calc2 rest (dictSet d1 (ab.1, ab.2) v1)
          (dictSet d2 (ab.2, ab.1) v2)

/-- The value of a successful `Except` payoff call (the `default` branch is
only reached for a raising call, which the build loop never stores). -/
def okValue {E V : Type} [Inhabited V] : Except E V → V
  | .ok v => v
  | .error _ => default

/-- The payoff-matrix state `construct` leaves behind with possibly-raising
payoff functions: `self.player1_payoffs = {}` has already executed when the
loop starts (the pre-build player-1 dict is discarded), player 2's dict
starts from its previous state (the `players2_payoffs` typo), and an
exception leaves the partially rebuilt dicts in place. -/
def constructPayoffsExc {C V E : Type} [DecidableEq C]
    (calc1 calc2 : C → C → Except E V) (cs : List C)
    (player2_payoffs_before : List ((C × C) × V)) :
    List ((C × C) × V) × List ((C × C) × V) × Option E :=
  buildPayoffsExc calc1 calc2 (buildPairs cs) [] player2_payoffs_before

/-! ## The minimax indifference system (`_find_minimax`) -/

/-- The weight `create_payoff_expressions` attaches to the `i`-th own
choice: the free variable `x_i` while `i + 1 < len(choices)`, and `1 -
sum(variables)` for the last choice. -/
def ratio_at {V : Type} [CommRing V] (n : Nat) (x : List V) (i : Nat) : V :=
  if i + 1 < n then x.getD i 0 else 1 - x.sum

/-- The expressions `create_payoff_expressions` builds, evaluated at a
concrete assignment `x` of the free variables: one linear expression per
opponent choice `their`, summing `payoffs[my, their] * variable(my)` over
the player's own choices (read from that player's payoff dict; a missing
key would raise `KeyError` — the `getD 0` default is unreachable for the
freshly built dicts the solver runs on). -/
def payoff_expressions {C V : Type} [DecidableEq C] [CommRing V]
    (cs : List C) (payoffs : List ((C × C) × V)) (x : List V) : List V :=
  cs.map (fun their =>
    (cs.enum.map (fun im =>
      (dictGet payoffs (im.2, their)).getD 0 * ratio_at cs.length x im.1)).sum)

/-- The solution tuple `linsolve` reports: the values of the listed
"variables" `x0, …, x_{n-2}, 1 - sum(...)`, one per choice in domain
order. -/
def full_mixing_ratios {V : Type} [CommRing V] (n : Nat) (x : List V) :
    List V :=
  (List.range n).map (ratio_at n x)

/-- Proposition: `x` is a solution of the linear system `linsolve` is asked to solve for
a player: every payoff expression of that player equal to zero, with one
free variable per choice except the last. -/
def solves_system {C V : Type} [DecidableEq C] [CommRing V]
    (cs : List C) (payoffs : List ((C × C) × V)) (x : List V) : Prop :=
  x.length + 1 = cs.length ∧ ∀ e ∈ payoff_expressions cs payoffs x, e = 0

/-! ## Concrete games referenced by the claim-level theorems -/

/-- Scenario 1 of the spec: the pricing-duopoly payoff
`(100 + (theirs − mine) * 10) * (mine − 30)`. -/
def duopoly_payoff (mine theirs : Int) : Int :=
  (100 + (theirs - mine) * 10) * (mine - 30)

/-- The integers 31..58. -/
def duopoly_choices : List Int := (List.range 28).map (fun k => 31 + (k : Int))

/-- The built pricing-duopoly table. -/
def duopoly_table : GameTable Int Int :=
  (GameTable.init "Player 1" "Player 2" duopoly_payoff duopoly_payoff
    duopoly_choices false).construct none

/-- A first build over the one-choice domain `[0]`. -/
def rebuild_first : GameTable Int Int :=
  (GameTable.init "Player 1" "Player 2" (fun a b => a + b) (fun a b => a - b)
    [0] false).construct none

/-- State after `table.choices = [1]` followed by a second `construct()`: a rebuild over
a replaced domain. -/
def rebuild_second : GameTable Int Int :=
  ({ rebuild_first with choices := [1] }).construct none

/-- A coordination payoff whose dominant-strategy analysis is legitimately
empty. -/
def coordination_payoff (m t : Int) : Int := if m = t then 1 else 0

/-- A `GameTable` on which `construct` has never run. -/
def fresh_table : GameTable Int Int :=
  GameTable.init "Player 1" "Player 2" coordination_payoff coordination_payoff
    [0, 1] false

/-- The same configuration after a successful build. -/
def built_coordination_table : GameTable Int Int := fresh_table.construct none

/-- A payoff function raising the exception `7` on the pair `(0, 1)`. -/
def raising_payoff (m t : Int) : Except Nat Int :=
  if m = 0 ∧ t = 1 then .error 7 else .ok (m + t)

/-- A payoff function that never raises. -/
def okay_payoff (m t : Int) : Except Nat Int := .ok (m * t)

/-- A build during which player 1's payoff function raises, starting from a
fresh instance (both dicts empty). -/
def failed_build : List ((Int × Int) × Int) × List ((Int × Int) × Int) × Option Nat :=
  constructPayoffsExc raising_payoff okay_payoff [0, 1] []

/-- Matching pennies for player 1 (over ℚ payoffs). -/
def pennies_payoff (m t : Int) : ℚ := if m = t then 1 else -1

/-- An asymmetric player-2 payoff: `(1 + theirs) * (1 − 2 * mine)`. -/
def asym_payoff (m t : Int) : ℚ := (1 + (t : ℚ)) * (1 - 2 * (m : ℚ))

/-- A built two-choice game with minimax analysis requested, whose two
indifference systems each have the unique solution `x0 = 1/2`. -/
def mixed_table : GameTable Int ℚ :=
  (GameTable.init "Player 1" "Player 2" pennies_payoff asym_payoff
    [0, 1] true).construct none

/-- The all-payoffs-equal game used to witness the dominance
characterization. -/
def constant_table : GameTable Int Int :=
  (GameTable.init "Player 1" "Player 2" (fun _ _ => 5) (fun _ _ => 5)
    [0, 1] false).construct none

/-! # Theorems

## Dictionary lemmas -/

theorem dictGet_replace_ne {K V : Type} [DecidableEq K]
    (d : List (K × V)) (k k2 : K) (v : V) (hne : k2 ≠ k) :
    dictGet (d.map (fun p => if p.1 = k then (k, v) else p)) k2 = dictGet d k2 := by
  induction d with
  | nil => rfl
  | cons p t ih =>
    unfold dictGet at ih ⊢
    by_cases hp : p.1 = k
    · rw [List.map_cons, if_pos hp,
        List.find?_cons_of_neg _ (by simpa using Ne.symm hne),
        List.find?_cons_of_neg _ (by simp [hp]; exact fun hc => hne (hc ▸ hp ▸ rfl))]
      exact ih
    · rw [List.map_cons, if_neg hp]
      by_cases hq : p.1 = k2
      · rw [List.find?_cons_of_pos _ (by simpa using hq),
          List.find?_cons_of_pos _ (by simpa using hq)]
      · rw [List.find?_cons_of_neg _ (by simpa using hq),
          List.find?_cons_of_neg _ (by simpa using hq)]
        exact ih

theorem dictGet_replace_self {K V : Type} [DecidableEq K]
    (d : List (K × V)) (k : K) (v : V)
    (h : (d.map Prod.fst).contains k = true) :
    dictGet (d.map (fun p => if p.1 = k then (k, v) else p)) k = some v := by
  induction d with
  | nil => simp at h
  | cons p t ih =>
    by_cases hp : p.1 = k
    · unfold dictGet
      rw [List.map_cons, if_pos hp, List.find?_cons_of_pos _ (by simp)]
      rfl
    · have h2 : (t.map Prod.fst).contains k = true := by
        simp only [List.map_cons, List.contains_cons, Bool.or_eq_true] at h
        rcases h with h1 | h1
        · exact absurd ((show k = p.1 by simpa using h1).symm) hp
        · exact h1
      unfold dictGet at ih ⊢
      rw [List.map_cons, if_neg hp, List.find?_cons_of_neg _ (by simpa using hp)]
      exact ih h2

theorem dictGet_append_single {K V : Type} [DecidableEq K]
    (d : List (K × V)) (k k2 : K) (v : V) :
    dictGet (d ++ [(k, v)]) k2 =
      ((dictGet d k2).orElse (fun _ => if k2 = k then some v else none)) := by
  induction d with
  | nil =>
    by_cases hq : k = k2
    · unfold dictGet
      rw [List.nil_append, List.find?_cons_of_pos _ (by simpa using hq)]
      simp [Option.orElse, hq.symm]
    · unfold dictGet
      rw [List.nil_append, List.find?_cons_of_neg _ (by simpa using hq)]
      simp [Option.orElse, if_neg (fun hc : k2 = k => hq hc.symm)]
  | cons p t ih =>
    by_cases hq : p.1 = k2
    · unfold dictGet
      rw [List.cons_append, List.find?_cons_of_pos _ (by simpa using hq),
        List.find?_cons_of_pos _ (by simpa using hq)]
      rfl
    · unfold dictGet at ih ⊢
      rw [List.cons_append, List.find?_cons_of_neg _ (by simpa using hq),
        List.find?_cons_of_neg _ (by simpa using hq)]
      exact ih

theorem dictGet_none_of_not_contains {K V : Type} [DecidableEq K]
    (d : List (K × V)) (k : K)
    (h : ¬ (d.map Prod.fst).contains k = true) : dictGet d k = none := by
  induction d with
  | nil => rfl
  | cons p t ih =>
    simp only [List.map_cons, List.contains_cons, Bool.or_eq_true] at h
    push_neg at h
    have hp : ¬ p.1 = k := fun hc => h.1 (by simpa using hc.symm)
    unfold dictGet at ih ⊢
    rw [List.find?_cons_of_neg _ (by simpa using hp)]
    exact ih h.2

/-- The two dict-assignment lemmas combined: after `d[k] = v`, looking up
`k2` gives `v` when `k2 = k` and the old answer otherwise. -/
theorem dictGet_dictSet {K V : Type} [DecidableEq K]
    (d : List (K × V)) (k k2 : K) (v : V) :
    dictGet (dictSet d k v) k2 = if k2 = k then some v else dictGet d k2 := by
  unfold dictSet
  by_cases h : (d.map Prod.fst).contains k
  · rw [if_pos h]
    by_cases hq : k2 = k
    · rw [if_pos hq, hq, dictGet_replace_self d k v h]
    · rw [if_neg hq, dictGet_replace_ne d k k2 v hq]
  · rw [if_neg h, dictGet_append_single]
    by_cases hq : k2 = k
    · rw [if_pos hq, hq, dictGet_none_of_not_contains d k h]
      simp
    · rw [if_neg hq]
      cases hd : dictGet d k2 with
      | none => simp [Option.orElse, hq]
      | some w => simp [Option.orElse, if_neg hq]

/-! ## The payoff dictionaries a build produces -/

theorem foldl_prod_split {A B X : Type} (f : A → X → A) (g : B → X → B)
    (l : List X) (a : A) (b : B) :
    l.foldl (fun d x => (f d.1 x, g d.2 x)) (a, b) = (l.foldl f a, l.foldl g b) := by
  induction l generalizing a b with
  | nil => rfl
  | cons h t ih =>
    simp only [List.foldl_cons]
    exact ih (f a h) (g b h)

theorem dictGet_foldl_dictSet_of_not_mem {K W X : Type} [DecidableEq K]
    (κ : X → K) (w : X → W) (l : List X) (d : List (K × W)) (k : K)
    (h : ∀ x ∈ l, κ x ≠ k) :
    dictGet (l.foldl (fun d x => dictSet d (κ x) (w x)) d) k = dictGet d k := by
  induction l generalizing d with
  | nil => rfl
  | cons xh t ih =>
    simp only [List.foldl_cons]
    rw [ih _ (fun x hx => h x (List.mem_cons_of_mem _ hx)), dictGet_dictSet,
      if_neg (fun hc => h xh (List.mem_cons_self _ _) hc.symm)]

theorem dictGet_foldl_dictSet_of_mem {K W X : Type} [DecidableEq K]
    (κ : X → K) (w : X → W) (l : List X) (d : List (K × W)) (k : K) (wv : W)
    (hex : ∃ x ∈ l, κ x = k) (hw : ∀ x ∈ l, κ x = k → w x = wv) :
    dictGet (l.foldl (fun d x => dictSet d (κ x) (w x)) d) k = some wv := by
  revert hex hw
  induction l generalizing d with
  | nil =>
    intro hex _
    exact absurd hex (by simp)
  | cons xh t ih =>
    intro hex hw
    simp only [List.foldl_cons]
    by_cases ht : ∃ x ∈ t, κ x = k
    · exact ih _ ht (fun x hx h2 => hw x (List.mem_cons_of_mem _ hx) h2)
    · have hnone : ∀ x ∈ t, κ x ≠ k := fun x hx hc => ht ⟨x, hx, hc⟩
      rw [dictGet_foldl_dictSet_of_not_mem κ w t _ k hnone, dictGet_dictSet]
      rcases hex with ⟨x, hx, hκ⟩
      rcases List.mem_cons.mp hx with rfl | hxt
      · rw [if_pos hκ.symm]
        exact congrArg some (hw x (List.mem_cons_self _ _) hκ)
      · exact absurd ⟨x, hxt, hκ⟩ ht

theorem mem_buildPairs {C : Type} (cs : List C) (a b : C) :
    (a, b) ∈ buildPairs cs ↔ a ∈ cs ∧ b ∈ cs := by
  simp [buildPairs]

theorem construct_player1_payoffs {C V : Type} [DecidableEq C] [LinearOrder V]
    (gt : GameTable C V) (choicesArg : Option (List C)) :
    (gt.construct choicesArg).player1_payoffs =
      (buildPairs (gt.effective_choices choicesArg)).foldl
        (fun d ab => dictSet d (ab.1, ab.2) (gt.calc_player1_payoff ab.1 ab.2))
        [] := by
  show ((buildPairs (gt.effective_choices choicesArg)).foldl _
    ([], gt.player2_payoffs)).1 = _
  exact congrArg Prod.fst (foldl_prod_split
    (fun d1 (ab : C × C) => dictSet d1 (ab.1, ab.2) (gt.calc_player1_payoff ab.1 ab.2))
    (fun d2 (ab : C × C) => dictSet d2 (ab.2, ab.1) (gt.calc_player2_payoff ab.2 ab.1))
    (buildPairs (gt.effective_choices choicesArg)) [] gt.player2_payoffs)

theorem construct_player2_payoffs {C V : Type} [DecidableEq C] [LinearOrder V]
    (gt : GameTable C V) (choicesArg : Option (List C)) :
    (gt.construct choicesArg).player2_payoffs =
      (buildPairs (gt.effective_choices choicesArg)).foldl
        (fun d ab => dictSet d (ab.2, ab.1) (gt.calc_player2_payoff ab.2 ab.1))
        gt.player2_payoffs := by
  show ((buildPairs (gt.effective_choices choicesArg)).foldl _
    ([], gt.player2_payoffs)).2 = _
  exact congrArg Prod.snd (foldl_prod_split
    (fun d1 (ab : C × C) => dictSet d1 (ab.1, ab.2) (gt.calc_player1_payoff ab.1 ab.2))
    (fun d2 (ab : C × C) => dictSet d2 (ab.2, ab.1) (gt.calc_player2_payoff ab.2 ab.1))
    (buildPairs (gt.effective_choices choicesArg)) [] gt.player2_payoffs)

theorem construct_dictGet_player1 {C V : Type} [DecidableEq C] [LinearOrder V]
    (gt : GameTable C V) (choicesArg : Option (List C)) (a b : C)
    (ha : a ∈ gt.effective_choices choicesArg)
    (hb : b ∈ gt.effective_choices choicesArg) :
    dictGet (gt.construct choicesArg).player1_payoffs (a, b) =
      some (gt.calc_player1_payoff a b) := by
  rw [construct_player1_payoffs]
  refine dictGet_foldl_dictSet_of_mem (fun ab : C × C => (ab.1, ab.2))
    (fun ab => gt.calc_player1_payoff ab.1 ab.2) _ _ _ _
    ⟨(a, b), (mem_buildPairs _ a b).mpr ⟨ha, hb⟩, rfl⟩ ?_
  intro x _ hx
  rw [Prod.mk.injEq] at hx
  show gt.calc_player1_payoff x.1 x.2 = gt.calc_player1_payoff a b
  rw [hx.1, hx.2]

theorem construct_dictGet_player2 {C V : Type} [DecidableEq C] [LinearOrder V]
    (gt : GameTable C V) (choicesArg : Option (List C)) (a b : C)
    (ha : a ∈ gt.effective_choices choicesArg)
    (hb : b ∈ gt.effective_choices choicesArg) :
    dictGet (gt.construct choicesArg).player2_payoffs (b, a) =
      some (gt.calc_player2_payoff b a) := by
  rw [construct_player2_payoffs]
  refine dictGet_foldl_dictSet_of_mem (fun ab : C × C => (ab.2, ab.1))
    (fun ab => gt.calc_player2_payoff ab.2 ab.1) _ _ _ _
    ⟨(a, b), (mem_buildPairs _ a b).mpr ⟨ha, hb⟩, rfl⟩ ?_
  intro x _ hx
  rw [Prod.mk.injEq] at hx
  show gt.calc_player2_payoff x.2 x.1 = gt.calc_player2_payoff b a
  rw [hx.1, hx.2]

theorem construct_index_eq {C V : Type} [DecidableEq C] [LinearOrder V]
    (gt : GameTable C V) (choicesArg : Option (List C)) (a b : C)
    (ha : a ∈ gt.effective_choices choicesArg)
    (hb : b ∈ gt.effective_choices choicesArg) :
    (gt.construct choicesArg).index a b =
      some (gt.calc_player1_payoff a b, gt.calc_player2_payoff b a) := by
  unfold GameTable.index
  rw [construct_dictGet_player1 gt choicesArg a b ha hb,
    construct_dictGet_player2 gt choicesArg a b ha hb]

/-! ## Set-accumulator and fold membership lemmas -/

theorem mem_setAdd {A : Type} [DecidableEq A] (s : List A) (x y : A) :
    y ∈ setAdd s x ↔ y ∈ s ∨ y = x := by
  unfold setAdd
  by_cases h : s.contains x
  · rw [if_pos h]
    have hx : x ∈ s := by simpa using h
    constructor
    · exact Or.inl
    · rintro (hy | rfl)
      exacts [hy, hx]
  · rw [if_neg h]
    simp [List.mem_append]

theorem nodup_setAdd {A : Type} [DecidableEq A] (s : List A) (x : A)
    (h : s.Nodup) : (setAdd s x).Nodup := by
  unfold setAdd
  by_cases hc : s.contains x
  · rwa [if_pos hc]
  · rw [if_neg hc]
    have hx : x ∉ s := by simpa using hc
    simp [List.nodup_append, h, hx]

theorem mem_foldl_of_mem_step {A B : Type} (F : List A → B → List A)
    (Q : B → A → Prop) (H : ∀ acc b x, x ∈ F acc b ↔ x ∈ acc ∨ Q b x)
    (l : List B) (acc : List A) (x : A) :
    x ∈ l.foldl F acc ↔ x ∈ acc ∨ ∃ b ∈ l, Q b x := by
  induction l generalizing acc with
  | nil => simp
  | cons h t ih =>
    simp only [List.foldl_cons]
    rw [ih (F acc h), H acc h x]
    constructor
    · rintro ((hx | hq) | ⟨b, hb, hq⟩)
      · exact Or.inl hx
      · exact Or.inr ⟨h, List.mem_cons_self _ _, hq⟩
      · exact Or.inr ⟨b, List.mem_cons_of_mem _ hb, hq⟩
    · rintro (hx | ⟨b, hb, hq⟩)
      · exact Or.inl (Or.inl hx)
      · rcases List.mem_cons.mp hb with rfl | hbt
        · exact Or.inl (Or.inr hq)
        · exact Or.inr ⟨b, hbt, hq⟩

theorem nodup_foldl_of_step {A B : Type} (F : List A → B → List A)
    (H : ∀ acc b, acc.Nodup → (F acc b).Nodup) (l : List B) (acc : List A)
    (h : acc.Nodup) : (l.foldl F acc).Nodup := by
  induction l generalizing acc with
  | nil => exact h
  | cons hd t ih =>
    simp only [List.foldl_cons]
    exact ih _ (H acc hd h)

theorem mem_if_setAdd {A : Type} [DecidableEq A] (P : Prop) [Decidable P]
    (acc : List A) (y x : A) :
    x ∈ (if P then setAdd acc y else acc) ↔ x ∈ acc ∨ (P ∧ x = y) := by
  by_cases hc : P
  · rw [if_pos hc, mem_setAdd]
    constructor
    · rintro (hx | rfl)
      · exact Or.inl hx
      · exact Or.inr ⟨hc, rfl⟩
    · rintro (hx | ⟨_, rfl⟩)
      · exact Or.inl hx
      · exact Or.inr rfl
  · rw [if_neg hc]
    exact ⟨Or.inl, fun h => h.elim id (fun hc2 => absurd hc2.1 hc)⟩

theorem nodup_if_setAdd {A : Type} [DecidableEq A] (P : Prop) [Decidable P]
    (acc : List A) (y : A) (h : acc.Nodup) :
    (if P then setAdd acc y else acc).Nodup := by
  by_cases hc : P
  · rw [if_pos hc]
    exact nodup_setAdd _ _ h
  · rwa [if_neg hc]

theorem map_getD_of_get? {A B : Type} (l : List A) (g : A → List B)
    (j : Nat) (b : A) (h : l.get? j = some b) : (l.map g).getD j [] = g b := by
  unfold List.getD
  rw [List.get?_eq_getElem?] at h ⊢
  rw [List.getElem?_map, h]
  rfl

/-! ## Nash equilibrium characterization -/

theorem mem_find_nash_equilibria {C V : Type} [DecidableEq C] [LinearOrder V]
    (gt : GameTable C V) (a b : C) :
    (a, b) ∈ gt.find_nash_equilibria ↔
      a ∈ gt.choices ∧ b ∈ gt.choices ∧
      some (gt.calc_player1_payoff a b) =
        pymax (gt.choices.map (fun a2 => gt.calc_player1_payoff a2 b)) ∧
      some (gt.calc_player2_payoff b a) =
        pymax (gt.choices.map (fun b2 => gt.calc_player2_payoff b2 a)) := by
  unfold GameTable.find_nash_equilibria
  refine Iff.trans (mem_foldl_of_mem_step _
    (fun ia x => ∃ jb ∈ gt.choices.enum,
      (some (gt.calc_player1_payoff ia.2 jb.2) =
          pymax (gt.player1_record_columns.getD jb.1 []) ∧
        some (gt.calc_player2_payoff jb.2 ia.2) =
          pymax (gt.player2_record_rows.getD ia.1 [])) ∧
      x = (ia.2, jb.2))
    (fun acc ia x => mem_foldl_of_mem_step _
      (fun jb x2 => (some (gt.calc_player1_payoff ia.2 jb.2) =
          pymax (gt.player1_record_columns.getD jb.1 []) ∧
        some (gt.calc_player2_payoff jb.2 ia.2) =
          pymax (gt.player2_record_rows.getD ia.1 [])) ∧
        x2 = (ia.2, jb.2))
      (fun acc2 jb x2 => mem_if_setAdd _ acc2 (ia.2, jb.2) x2)
      gt.choices.enum acc x)
    gt.choices.enum [] (a, b)) ?_
  constructor
  · rintro (hx | ⟨ia, hia, jb, hjb, ⟨h1, h2⟩, heq⟩)
    · simp at hx
    · have hga : gt.choices.get? ia.1 = some ia.2 := by
        rw [List.get?_eq_getElem?]
        exact List.mk_mem_enum_iff_getElem?.mp hia
      have hgb : gt.choices.get? jb.1 = some jb.2 := by
        rw [List.get?_eq_getElem?]
        exact List.mk_mem_enum_iff_getElem?.mp hjb
      rw [Prod.mk.injEq] at heq
      obtain ⟨ha2, hb2⟩ := heq
      subst ha2
      subst hb2
      unfold GameTable.player1_record_columns at h1
      unfold GameTable.player2_record_rows at h2
      rw [map_getD_of_get? _ _ _ _ hgb] at h1
      rw [map_getD_of_get? _ _ _ _ hga] at h2
      exact ⟨List.get?_mem hga, List.get?_mem hgb, h1, h2⟩
  · rintro ⟨ha, hb, h1, h2⟩
    rcases List.get?_of_mem ha with ⟨i, hi⟩
    rcases List.get?_of_mem hb with ⟨j, hj⟩
    have hi2 : gt.choices[i]? = some a := by
      rw [← List.get?_eq_getElem?]
      exact hi
    have hj2 : gt.choices[j]? = some b := by
      rw [← List.get?_eq_getElem?]
      exact hj
    refine Or.inr ⟨(i, a), List.mk_mem_enum_iff_getElem?.mpr hi2,
      (j, b), List.mk_mem_enum_iff_getElem?.mpr hj2, ⟨?_, ?_⟩, rfl⟩
    · show some (gt.calc_player1_payoff a b) =
        pymax (gt.player1_record_columns.getD j [])
      unfold GameTable.player1_record_columns
      rw [map_getD_of_get? _ _ _ _ hj]
      exact h1
    · show some (gt.calc_player2_payoff b a) =
        pymax (gt.player2_record_rows.getD i [])
      unfold GameTable.player2_record_rows
      rw [map_getD_of_get? _ _ _ _ hi]
      exact h2

theorem nodup_find_nash_equilibria {C V : Type} [DecidableEq C] [LinearOrder V]
    (gt : GameTable C V) : gt.find_nash_equilibria.Nodup := by
  unfold GameTable.find_nash_equilibria
  refine nodup_foldl_of_step _ ?_ _ _ List.nodup_nil
  intro acc ia hacc
  refine nodup_foldl_of_step _ ?_ _ _ hacc
  intro acc2 jb hacc2
  exact nodup_if_setAdd _ acc2 (ia.2, jb.2) hacc2

theorem construct_nash_equilibria {C V : Type} [DecidableEq C] [LinearOrder V]
    (gt : GameTable C V) (choicesArg : Option (List C)) :
    (gt.construct choicesArg).nash_equilibria = gt.find_nash_equilibria := rfl

theorem construct_player1_dominants {C V : Type} [DecidableEq C] [LinearOrder V]
    (gt : GameTable C V) (choicesArg : Option (List C)) :
    (gt.construct choicesArg).player1_dominants =
      gt.find_player1_dominants false := rfl

theorem construct_player2_dominants {C V : Type} [DecidableEq C] [LinearOrder V]
    (gt : GameTable C V) (choicesArg : Option (List C)) :
    (gt.construct choicesArg).player2_dominants =
      gt.find_player2_dominants false := rfl

theorem construct_player1_dominated {C V : Type} [DecidableEq C] [LinearOrder V]
    (gt : GameTable C V) (choicesArg : Option (List C)) :
    (gt.construct choicesArg).player1_dominated =
      gt.find_player1_dominants true := rfl

theorem construct_player2_dominated {C V : Type} [DecidableEq C] [LinearOrder V]
    (gt : GameTable C V) (choicesArg : Option (List C)) :
    (gt.construct choicesArg).player2_dominated =
      gt.find_player2_dominants true := rfl

/-! ## Claim C2 -/

/-- Claim C2: For every built game table, `nash_equilibria` contains exactly
the pairs `(a, b)` of domain choices whose player-1 payoff is maximal in
the cell's column (player 2's choice fixed) and whose player-2 payoff is
maximal in the cell's row (player 1's choice fixed); the result has no
duplicates, and by the same characterization it is a subset of `D × D`. -/
theorem claim_nash_equilibria_characterization {C V : Type} [DecidableEq C]
    [LinearOrder V] (gt : GameTable C V) (choicesArg : Option (List C)) :
    (∀ a b : C,
      (a, b) ∈ (gt.construct choicesArg).nash_equilibria ↔
        a ∈ gt.choices ∧ b ∈ gt.choices ∧
        some (gt.calc_player1_payoff a b) =
          pymax (gt.choices.map (fun a2 => gt.calc_player1_payoff a2 b)) ∧
        some (gt.calc_player2_payoff b a) =
          pymax (gt.choices.map (fun b2 => gt.calc_player2_payoff b2 a))) ∧
    (gt.construct choicesArg).nash_equilibria.Nodup := by
  rw [construct_nash_equilibria]
  exact ⟨fun a b => mem_find_nash_equilibria gt a b,
    nodup_find_nash_equilibria gt⟩

/-! ## Claim C10 -/

/-- Claim C10: Calling `construct` with an empty (falsy) choices collection
behaves exactly as calling it with no argument: the empty domain is ignored
and the instance's configured choices are used. -/
theorem claim_construct_empty_choices_like_none {C V : Type} [DecidableEq C]
    [LinearOrder V] (gt : GameTable C V) :
    gt.construct (some []) = gt.construct none := rfl

/-! ## Claim C1 -/

/-- Claim C1, code bug: `construct` reassigns `self.player1_payoffs` but then
writes the stray attribute `self.players2_payoffs` instead of
`self.player2_payoffs`, so player 2's dict keeps stale entries from an
earlier build: after building over `[0]` and rebuilding over `[1]`, player
1's dict has `1 = |D|²` entry but player 2's dict has `2` entries — the
stale key `(0, 0)` is still present with its old payoff. -/
theorem claim_rebuild_keeps_stale_player2_entries :
    rebuild_second.player1_payoffs.length = 1 ∧
    rebuild_second.player2_payoffs.length = 2 ∧
    dictGet rebuild_second.player2_payoffs (0, 0) = some 0 ∧
    rebuild_second.choices.length ^ 2 = 1 := by decide

/-! ## Dominance characterization -/

theorem mem_foldl_filter_contains (first : List Nat) (rest : List (List Nat))
    (i : Nat) :
    i ∈ rest.foldl (fun acc (idxs : List Nat) =>
        acc.filter (fun j => idxs.contains j)) first ↔
      i ∈ first ∧ ∀ idxs ∈ rest, i ∈ idxs := by
  induction rest generalizing first with
  | nil => simp
  | cons h t ih =>
    simp only [List.foldl_cons]
    rw [ih, List.mem_filter]
    constructor
    · rintro ⟨⟨h1, h2⟩, h3⟩
      refine ⟨h1, fun idxs hm => ?_⟩
      rcases List.mem_cons.mp hm with rfl | hm2
      · simpa using h2
      · exact h3 idxs hm2
    · rintro ⟨h1, h2⟩
      exact ⟨⟨h1, by simpa using h2 h (List.mem_cons_self _ _)⟩,
        fun idxs hm => h2 idxs (List.mem_cons_of_mem _ hm)⟩

theorem mem_extremum_indices {V : Type} [LinearOrder V] (useMin : Bool)
    (col : List V) (i : Nat) :
    i ∈ extremum_indices useMin col ↔
      ∃ v, col.get? i = some v ∧
        some v = (if useMin then pymin col else pymax col) := by
  unfold extremum_indices
  constructor
  · intro hm
    rcases List.mem_map.mp hm with ⟨⟨i2, v⟩, hmem, hfst⟩
    cases hfst
    rcases List.mem_filter.mp hmem with ⟨henum, hcond⟩
    refine ⟨v, ?_, by simpa using hcond⟩
    rw [List.get?_eq_getElem?]
    exact List.mk_mem_enum_iff_getElem?.mp henum
  · rintro ⟨v, hget, hv⟩
    rw [List.get?_eq_getElem?] at hget
    exact List.mem_map.mpr ⟨(i, v),
      List.mem_filter.mpr ⟨List.mk_mem_enum_iff_getElem?.mpr hget,
        by simpa using hv⟩, rfl⟩

/-- Membership in `_find_dominants` over collections of the shape the two
per-player wrappers produce: one collection per opponent choice, each
listing the player's payoffs over the player's own choices. -/
theorem mem_find_dominants_characterization {C V : Type} [LinearOrder V]
    (cs : List C) (payoff : C → C → V) (useMin : Bool) (hne : cs ≠ [])
    (c : C) :
    c ∈ find_dominants cs
        (cs.map (fun b => cs.map (fun a => payoff a b))) useMin ↔
      c ∈ cs ∧ ∀ b ∈ cs,
        some (payoff c b) =
          (if useMin then pymin (cs.map (fun a => payoff a b))
           else pymax (cs.map (fun a => payoff a b))) := by
  rcases hcs : cs with _ | ⟨o, os⟩
  · exact absurd hcs hne
  rw [← hcs]
  have hcons : cs.map (fun b => cs.map (fun a => payoff a b)) =
      (cs.map (fun a => payoff a o)) ::
        os.map (fun b => cs.map (fun a => payoff a b)) := by
    rw [hcs, List.map_cons, ← hcs]
  unfold find_dominants
  rw [hcons]
  simp only [List.map_cons]
  rw [List.mem_filterMap]
  constructor
  · rintro ⟨i, hi, hget⟩
    rw [List.map_map, mem_foldl_filter_contains] at hi
    obtain ⟨hfirst, hrest⟩ := hi
    have hall : ∀ b ∈ cs, i ∈ extremum_indices useMin
        (cs.map (fun a => payoff a b)) := by
      intro b hb
      rw [hcs] at hb
      rcases List.mem_cons.mp hb with rfl | hbo
      · exact hfirst
      · exact hrest _ (List.mem_map_of_mem _ hbo)
    refine ⟨List.get?_mem hget, fun b hb => ?_⟩
    rcases (mem_extremum_indices useMin _ i).mp (hall b hb) with ⟨v, hv, hext⟩
    rw [List.get?_eq_getElem?] at hv hget
    rw [List.getElem?_map, hget] at hv
    cases hv
    exact hext
  · rintro ⟨hc, hall⟩
    rcases List.get?_of_mem hc with ⟨i, hi⟩
    have hexti : ∀ b ∈ cs, i ∈ extremum_indices useMin
        (cs.map (fun a => payoff a b)) := by
      intro b hb
      refine (mem_extremum_indices useMin _ i).mpr ⟨payoff c b, ?_, hall b hb⟩
      rw [List.get?_eq_getElem?] at hi ⊢
      rw [List.getElem?_map, hi]
      rfl
    refine ⟨i, ?_, hi⟩
    rw [List.map_map, mem_foldl_filter_contains]
    refine ⟨hexti o (by rw [hcs]; exact List.mem_cons_self _ _), ?_⟩
    intro idxs hm
    rcases List.mem_map.mp hm with ⟨b, hb, rfl⟩
    exact hexti b (by rw [hcs]; exact List.mem_cons_of_mem _ hb)

theorem foldl_max_const {V : Type} [LinearOrder V] (l : List V) (v : V)
    (h : ∀ x ∈ l, x = v) : l.foldl max v = v := by
  induction l with
  | nil => rfl
  | cons a t ih =>
    simp only [List.foldl_cons]
    rw [h a (List.mem_cons_self _ _), max_self]
    exact ih (fun x hx => h x (List.mem_cons_of_mem _ hx))

theorem foldl_min_const {V : Type} [LinearOrder V] (l : List V) (v : V)
    (h : ∀ x ∈ l, x = v) : l.foldl min v = v := by
  induction l with
  | nil => rfl
  | cons a t ih =>
    simp only [List.foldl_cons]
    rw [h a (List.mem_cons_self _ _), min_self]
    exact ih (fun x hx => h x (List.mem_cons_of_mem _ hx))

theorem pymax_const {V : Type} [LinearOrder V] (l : List V) (v : V)
    (hne : l ≠ []) (h : ∀ x ∈ l, x = v) : pymax l = some v := by
  rcases l with _ | ⟨a, t⟩
  · exact absurd rfl hne
  unfold pymax
  rw [h a (List.mem_cons_self _ _)]
  exact congrArg some
    (foldl_max_const t v (fun x hx => h x (List.mem_cons_of_mem _ hx)))

theorem pymin_const {V : Type} [LinearOrder V] (l : List V) (v : V)
    (hne : l ≠ []) (h : ∀ x ∈ l, x = v) : pymin l = some v := by
  rcases l with _ | ⟨a, t⟩
  · exact absurd rfl hne
  unfold pymin
  rw [h a (List.mem_cons_self _ _)]
  exact congrArg some
    (foldl_min_const t v (fun x hx => h x (List.mem_cons_of_mem _ hx)))

/-! ## Claim C3 -/

/-- Claim C3: For every built game table over a non-empty domain (a build over
an empty domain raises inside `_find_dominants`), each player's
dominant-strategy set consists exactly of the domain choices whose payoff
equals the maximum payoff against every opponent choice (the intersection
of the per-opponent-choice argmax sets, ties included), the dominated sets
are the same with the minimum, and if all payoffs are equal then every
choice is simultaneously dominant and dominated for both players. -/
theorem claim_dominant_strategies_characterization {C V : Type}
    [DecidableEq C] [LinearOrder V] (gt : GameTable C V)
    (choicesArg : Option (List C)) (hne : gt.choices ≠ []) :
    (∀ c : C, c ∈ (gt.construct choicesArg).player1_dominants ↔
      c ∈ gt.choices ∧ ∀ b ∈ gt.choices,
        some (gt.calc_player1_payoff c b) =
          pymax (gt.choices.map (fun a => gt.calc_player1_payoff a b))) ∧
    (∀ c : C, c ∈ (gt.construct choicesArg).player1_dominated ↔
      c ∈ gt.choices ∧ ∀ b ∈ gt.choices,
        some (gt.calc_player1_payoff c b) =
          pymin (gt.choices.map (fun a => gt.calc_player1_payoff a b))) ∧
    (∀ c : C, c ∈ (gt.construct choicesArg).player2_dominants ↔
      c ∈ gt.choices ∧ ∀ a ∈ gt.choices,
        some (gt.calc_player2_payoff c a) =
          pymax (gt.choices.map (fun b => gt.calc_player2_payoff b a))) ∧
    (∀ c : C, c ∈ (gt.construct choicesArg).player2_dominated ↔
      c ∈ gt.choices ∧ ∀ a ∈ gt.choices,
        some (gt.calc_player2_payoff c a) =
          pymin (gt.choices.map (fun b => gt.calc_player2_payoff b a))) ∧
    ((∃ v1 v2 : V, (∀ a b : C, gt.calc_player1_payoff a b = v1) ∧
        (∀ a b : C, gt.calc_player2_payoff a b = v2)) →
      ∀ c ∈ gt.choices,
        c ∈ (gt.construct choicesArg).player1_dominants ∧
        c ∈ (gt.construct choicesArg).player1_dominated ∧
        c ∈ (gt.construct choicesArg).player2_dominants ∧
        c ∈ (gt.construct choicesArg).player2_dominated) := by
  have hmapne : ∀ (f : C → V), gt.choices.map f ≠ [] := by
    intro f h
    exact hne (List.map_eq_nil_iff.mp h)
  have h1 : ∀ c : C, c ∈ (gt.construct choicesArg).player1_dominants ↔
      c ∈ gt.choices ∧ ∀ b ∈ gt.choices,
        some (gt.calc_player1_payoff c b) =
          pymax (gt.choices.map (fun a => gt.calc_player1_payoff a b)) :=
    fun c => mem_find_dominants_characterization gt.choices
      gt.calc_player1_payoff false hne c
  have h2 : ∀ c : C, c ∈ (gt.construct choicesArg).player1_dominated ↔
      c ∈ gt.choices ∧ ∀ b ∈ gt.choices,
        some (gt.calc_player1_payoff c b) =
          pymin (gt.choices.map (fun a => gt.calc_player1_payoff a b)) :=
    fun c => mem_find_dominants_characterization gt.choices
      gt.calc_player1_payoff true hne c
  have h3 : ∀ c : C, c ∈ (gt.construct choicesArg).player2_dominants ↔
      c ∈ gt.choices ∧ ∀ a ∈ gt.choices,
        some (gt.calc_player2_payoff c a) =
          pymax (gt.choices.map (fun b => gt.calc_player2_payoff b a)) :=
    fun c => mem_find_dominants_characterization gt.choices
      gt.calc_player2_payoff false hne c
  have h4 : ∀ c : C, c ∈ (gt.construct choicesArg).player2_dominated ↔
      c ∈ gt.choices ∧ ∀ a ∈ gt.choices,
        some (gt.calc_player2_payoff c a) =
          pymin (gt.choices.map (fun b => gt.calc_player2_payoff b a)) :=
    fun c => mem_find_dominants_characterization gt.choices
      gt.calc_player2_payoff true hne c
  refine ⟨h1, h2, h3, h4, ?_⟩
  rintro ⟨v1, v2, hv1, hv2⟩ c hc
  have hall1 : ∀ (b : C) (x : V),
      x ∈ gt.choices.map (fun a => gt.calc_player1_payoff a b) → x = v1 := by
    intro b x hx
    rcases List.mem_map.mp hx with ⟨a, _, rfl⟩
    exact hv1 a b
  have hall2 : ∀ (a : C) (x : V),
      x ∈ gt.choices.map (fun b => gt.calc_player2_payoff b a) → x = v2 := by
    intro a x hx
    rcases List.mem_map.mp hx with ⟨b, _, rfl⟩
    exact hv2 b a
  refine ⟨(h1 c).mpr ⟨hc, fun b _ => ?_⟩, (h2 c).mpr ⟨hc, fun b _ => ?_⟩,
    (h3 c).mpr ⟨hc, fun a _ => ?_⟩, (h4 c).mpr ⟨hc, fun a _ => ?_⟩⟩
  · rw [hv1 c b, pymax_const _ v1 (hmapne _) (hall1 b)]
  · rw [hv1 c b, pymin_const _ v1 (hmapne _) (hall1 b)]
  · rw [hv2 c a, pymax_const _ v2 (hmapne _) (hall2 a)]
  · rw [hv2 c a, pymin_const _ v2 (hmapne _) (hall2 a)]

/-- Claim C3 witness: In the all-payoffs-equal two-choice game, the
characterization puts the choice `0` in all four dominance sets of the built
table. -/
theorem claim_dominant_strategies_characterization_witness :
    (0 : Int) ∈ constant_table.player1_dominants ∧
    (0 : Int) ∈ constant_table.player1_dominated ∧
    (0 : Int) ∈ constant_table.player2_dominants ∧
    (0 : Int) ∈ constant_table.player2_dominated := by
  unfold constant_table
  have h := claim_dominant_strategies_characterization
    (GameTable.init "Player 1" "Player 2" (fun _ _ => (5 : Int))
      (fun _ _ => 5) ([0, 1] : List Int) false) none (by decide)
  exact h.2.2.2.2 ⟨5, 5, fun _ _ => rfl, fun _ _ => rfl⟩ 0 (by decide)

/-! ## Claim C9 -/

set_option maxRecDepth 20000 in
/-- Claim C9: In the pricing duopoly over the integers 31..58 with the payoff
`(100 + (theirs − mine) * 10) * (mine − 30)` used by both players, the
built table has empty dominant-strategy sets for both players, and the
payoff pair at `(player 1 = 43, player 2 = 58)` is `(3250, −1400)`. -/
theorem claim_duopoly_scenario :
    duopoly_table.player1_dominants = [] ∧
    duopoly_table.player2_dominants = [] ∧
    duopoly_table.index 43 58 = some (3250, -1400) := by
  refine ⟨by decide, by decide, ?_⟩
  have h2 : duopoly_table.index 43 58 =
      some (duopoly_payoff 43 58, duopoly_payoff 58 43) :=
    construct_index_eq
      (GameTable.init "Player 1" "Player 2" duopoly_payoff duopoly_payoff
        duopoly_choices false) none 43 58 (by decide) (by decide)
  rw [show duopoly_payoff 43 58 = 3250 by decide,
    show duopoly_payoff 58 43 = -1400 by decide] at h2
  exact h2

/-! ## Claim C5 -/

/-- Claim C5, amended: On a table on which `construct` has never run, every
analysis attribute holds its `__init__` default — empty dominance lists, an
empty equilibrium set, `None` mixing ratios, empty payoff dicts — and
reading them is plain attribute access that succeeds; no error is
raised. -/
theorem claim_unbuilt_reads_return_defaults {C V : Type}
    (p1n p2n : String) (c1 c2 : C → C → V) (cs : List C) (mm : Bool) :
    (GameTable.init p1n p2n c1 c2 cs mm).player1_dominants = [] ∧
    (GameTable.init p1n p2n c1 c2 cs mm).player2_dominants = [] ∧
    (GameTable.init p1n p2n c1 c2 cs mm).player1_dominated = [] ∧
    (GameTable.init p1n p2n c1 c2 cs mm).player2_dominated = [] ∧
    (GameTable.init p1n p2n c1 c2 cs mm).nash_equilibria = [] ∧
    (GameTable.init p1n p2n c1 c2 cs mm).player1_mixing_ratios = none ∧
    (GameTable.init p1n p2n c1 c2 cs mm).player2_mixing_ratios = none ∧
    (GameTable.init p1n p2n c1 c2 cs mm).player1_payoffs = [] ∧
    (GameTable.init p1n p2n c1 c2 cs mm).player2_payoffs = [] :=
  ⟨rfl, rfl, rfl, rfl, rfl, rfl, rfl, rfl, rfl⟩

/-- Claim C5 counterexample: The claim says pre-build analysis reads fail with
an error.  They do not: the fresh coordination table's dominant list reads
as `[]` without failure, equal to the dominant list of the same game after
a successful build (whose dominance analysis is legitimately empty) — the
unbuilt and the legitimately-empty built state are indistinguishable
through these reads. -/
theorem claim_unbuilt_read_counterexample :
    fresh_table.player1_dominants = [] ∧
    fresh_table.player2_dominants = [] ∧
    fresh_table.nash_equilibria = [] ∧
    fresh_table.player1_mixing_ratios = none ∧
    built_coordination_table.player1_dominants = [] ∧
    fresh_table.player1_dominants =
      built_coordination_table.player1_dominants := by decide

/-! ## Claim C6 -/

/-- Claim C6, amended: When a payoff function raises during the build loop,
the error `construct` surfaces is exactly the first error a payoff call
returned (it propagates unmodified), but the matrix is **not** rolled back:
the dicts at that moment are the loop's starting dicts (player 1's already
reset to empty, player 2's pre-build dict) filled with exactly the pairs
completed before the failure — plus the failing pair's player-1 entry when
only the player-2 call failed. -/
theorem claim_failed_build_state {C V E : Type} [DecidableEq C] [Inhabited V]
    (calc1 calc2 : C → C → Except E V) (pairs : List (C × C))
    (d1 d2 d1f d2f : List ((C × C) × V)) (e : E)
    (h : buildPayoffsExc calc1 calc2 pairs d1 d2 = (d1f, d2f, some e)) :
    ∃ done ab rest, pairs = done ++ ab :: rest ∧
      (∀ pq ∈ done, (∃ v, calc1 pq.1 pq.2 = .ok v) ∧
        ∃ v, calc2 pq.2 pq.1 = .ok v) ∧
      ((calc1 ab.1 ab.2 = .error e ∧
          d1f = done.foldl (fun d pq =>
            dictSet d (pq.1, pq.2) (okValue (calc1 pq.1 pq.2))) d1 ∧
          d2f = done.foldl (fun d pq =>
            dictSet d (pq.2, pq.1) (okValue (calc2 pq.2 pq.1))) d2) ∨
        (∃ v1, calc1 ab.1 ab.2 = .ok v1 ∧ calc2 ab.2 ab.1 = .error e ∧
          d1f = dictSet (done.foldl (fun d pq =>
            dictSet d (pq.1, pq.2) (okValue (calc1 pq.1 pq.2))) d1)
            (ab.1, ab.2) v1 ∧
          d2f = done.foldl (fun d pq =>
            dictSet d (pq.2, pq.1) (okValue (calc2 pq.2 pq.1))) d2)) := by
  induction pairs generalizing d1 d2 with
  | nil => exact absurd h (by simp [buildPayoffsExc])
  | cons ab0 rest0 ih =>
    cases hc1 : calc1 ab0.1 ab0.2 with
    | error e1 =>
      simp only [buildPayoffsExc, hc1] at h
      obtain ⟨hd1, h23⟩ := Prod.ext_iff.mp h
      obtain ⟨hd2, he⟩ := Prod.ext_iff.mp h23
      obtain rfl : e1 = e := Option.some.injEq _ _ ▸ he
      refine ⟨[], ab0, rest0, rfl, by simp, Or.inl ⟨hc1, ?_, ?_⟩⟩
      · exact hd1.symm
      · exact hd2.symm
    | ok v1 =>
      cases hc2 : calc2 ab0.2 ab0.1 with
      | error e2 =>
        simp only [buildPayoffsExc, hc1, hc2] at h
        obtain ⟨hd1, h23⟩ := Prod.ext_iff.mp h
        obtain ⟨hd2, he⟩ := Prod.ext_iff.mp h23
        obtain rfl : e2 = e := Option.some.injEq _ _ ▸ he
        refine ⟨[], ab0, rest0, rfl, by simp,
          Or.inr ⟨v1, hc1, hc2, ?_, ?_⟩⟩
        · exact hd1.symm
        · exact hd2.symm
      | ok v2 =>
        simp only [buildPayoffsExc, hc1, hc2] at h
        rcases ih _ _ h with ⟨done, ab, rest, hsplit, hok, hcase⟩
        refine ⟨ab0 :: done, ab, rest, by rw [List.cons_append, hsplit], ?_, ?_⟩
        · intro pq hpq
          rcases List.mem_cons.mp hpq with rfl | hm
          · exact ⟨⟨v1, hc1⟩, ⟨v2, hc2⟩⟩
          · exact hok pq hm
        · rcases hcase with ⟨ha, hb, hcc⟩ | ⟨w, ha, hb, hcc, hdd⟩
          · refine Or.inl ⟨ha, ?_, ?_⟩
            · rw [List.foldl_cons, hc1]
              exact hb
            · rw [List.foldl_cons, hc2]
              exact hcc
          · refine Or.inr ⟨w, ha, hb, ?_, ?_⟩
            · rw [List.foldl_cons, hc1]
              exact hcc
            · rw [List.foldl_cons, hc2]
              exact hdd

/-- Claim C6 witness: The decomposition applies to the concrete failed build:
player 1's payoff function raises `7` on the second pair `(0, 1)`, and the
dicts hold exactly the first pair's entries. -/
theorem claim_failed_build_state_witness :
    ∃ done ab rest, buildPairs ([0, 1] : List Int) = done ++ ab :: rest ∧
      (∀ pq ∈ done, (∃ v, raising_payoff pq.1 pq.2 = .ok v) ∧
        ∃ v, okay_payoff pq.2 pq.1 = .ok v) ∧
      ((raising_payoff ab.1 ab.2 = .error 7 ∧
          ([((0, 0), 0)] : List ((Int × Int) × Int)) = done.foldl (fun d pq =>
            dictSet d (pq.1, pq.2) (okValue (raising_payoff pq.1 pq.2))) [] ∧
          ([((0, 0), 0)] : List ((Int × Int) × Int)) = done.foldl (fun d pq =>
            dictSet d (pq.2, pq.1) (okValue (okay_payoff pq.2 pq.1))) []) ∨
        (∃ v1, raising_payoff ab.1 ab.2 = .ok v1 ∧
          okay_payoff ab.2 ab.1 = .error 7 ∧
          ([((0, 0), 0)] : List ((Int × Int) × Int)) =
            dictSet (done.foldl (fun d pq =>
              dictSet d (pq.1, pq.2) (okValue (raising_payoff pq.1 pq.2))) [])
              (ab.1, ab.2) v1 ∧
          ([((0, 0), 0)] : List ((Int × Int) × Int)) = done.foldl (fun d pq =>
            dictSet d (pq.2, pq.1) (okValue (okay_payoff pq.2 pq.1))) [])) :=
  claim_failed_build_state raising_payoff okay_payoff
    (buildPairs ([0, 1] : List Int)) [] [] [((0, 0), 0)] [((0, 0), 0)] 7
    (by decide)

/-- Claim C6 counterexample: The claim says the matrix is left exactly in its
pre-build state after a failing build.  It is not: this fresh two-choice
build raises `7` on its second pair and leaves player 1's matrix holding
the first pair's entry, not its empty pre-build state. -/
theorem claim_failed_build_counterexample :
    failed_build.2.2 = some 7 ∧
    failed_build.1 = [((0, 0), 0)] ∧
    failed_build.1 ≠ ([] : List ((Int × Int) × Int)) := by decide

/-! ## Traversal lemmas -/

theorem collectFrom_eq {C V : Type} (gt : GameTable C V) (row : Int) (a : C)
    (n : Nat) (l : List C) :
    collectFrom gt row a ((n : Int) - 1) l =
      (l.enumFrom n).map (fun jb => mkRecordAt gt a jb.2 row (jb.1 : Int)) := by
  induction l generalizing n with
  | nil => rfl
  | cons b rest ih =>
    simp only [collectFrom, List.enumFrom, List.map_cons]
    have harith : ((n : Int) - 1) + 1 = (n : Int) := by ring
    rw [harith]
    have ih2 := ih (n + 1)
    rw [show ((n + 1 : Nat) : Int) - 1 = (n : Int) by push_cast; ring] at ih2
    rw [ih2]
    rfl

theorem collect_iter_eq {C V : Type} [Inhabited C] (gt : GameTable C V)
    (i : Nat) (a : C) (hget : gt.choices.get? i = some a) :
    (RowIterator.iter ⟨gt, (i : Int)⟩).collect =
      gt.choices.enum.map (fun jb =>
        mkRecordAt gt a jb.2 (i : Int) (jb.1 : Int)) := by
  have hp : pyindex gt.choices (i : Int) = some a := by
    unfold pyindex
    rw [if_pos (by exact_mod_cast Nat.zero_le i)]
    simpa using hget
  show collectFrom gt (i : Int) ((pyindex gt.choices (i : Int)).getD default)
      (-1) gt.choices = _
  rw [hp]
  have h0 := collectFrom_eq gt (i : Int) a 0 gt.choices
  rw [show ((0 : Nat) : Int) - 1 = (-1 : Int) by decide] at h0
  exact h0

theorem run_eq {C V : Type} [Inhabited C] (gt : GameTable C V) (i fuel : Nat)
    (hle : i ≤ gt.choices.length) (hfuel : gt.choices.length - i < fuel) :
    RowIterator.run ⟨gt, (i : Int) - 1⟩ fuel =
      (gt.choices.enum.drop i).map (fun ia =>
        gt.choices.enum.map (fun jb =>
          mkRecordAt gt ia.2 jb.2 (ia.1 : Int) (jb.1 : Int))) := by
  induction fuel generalizing i with
  | zero => omega
  | succ fuel ih =>
    by_cases hi : i = gt.choices.length
    · have hnext : RowIterator.next
          (⟨gt, (i : Int) - 1⟩ : RowIterator C V) = none := by
        unfold RowIterator.next
        rw [if_pos (by rw [hi]; ring)]
      unfold RowIterator.run
      rw [hnext]
      rw [List.drop_eq_nil_of_le (by rw [List.enum_length]; omega)]
      rfl
    · have hilt : i < gt.choices.length := lt_of_le_of_ne hle hi
      have hnext : RowIterator.next
          (⟨gt, (i : Int) - 1⟩ : RowIterator C V) =
          some ⟨gt, (i : Int)⟩ := by
        show (if (i : Int) - 1 + 1 = (gt.choices.length : Int) then none
          else some (⟨gt, (i : Int) - 1 + 1⟩ : RowIterator C V)) =
            some ⟨gt, (i : Int)⟩
        rw [show (i : Int) - 1 + 1 = (i : Int) by ring]
        rw [if_neg (fun hc => hi (by exact_mod_cast hc))]
      unfold RowIterator.run
      rw [hnext]
      show (RowIterator.iter ⟨gt, (i : Int)⟩).collect ::
        RowIterator.run ⟨gt, (i : Int)⟩ fuel = _
      have ha := List.get?_eq_get hilt
      rw [collect_iter_eq gt i (gt.choices.get ⟨i, hilt⟩) ha]
      have hle2 : i + 1 ≤ gt.choices.length := by omega
      have hfuel2 : gt.choices.length - (i + 1) < fuel := by omega
      have ih2 := ih (i + 1) hle2 hfuel2
      rw [show ((i + 1 : Nat) : Int) - 1 = (i : Int) by push_cast; ring] at ih2
      rw [ih2]
      have henum : i < gt.choices.enum.length := by
        rw [List.enum_length]
        omega
      rw [List.drop_eq_getElem_cons henum, List.map_cons, List.getElem_enum]
      rfl

theorem table_rows_eq {C V : Type} [Inhabited C] (gt : GameTable C V) :
    gt.table_rows =
      gt.choices.enum.map (fun ia => gt.choices.enum.map (fun jb =>
        mkRecordAt gt ia.2 jb.2 (ia.1 : Int) (jb.1 : Int))) := by
  have h := run_eq gt 0 (gt.choices.length + 1) (Nat.zero_le _) (by omega)
  rw [show ((0 : Nat) : Int) - 1 = (-1 : Int) by decide, List.drop_zero] at h
  exact h

theorem collect_eq_nil_of_next_none {C V : Type} (it : ColumnIterator C V)
    (h : it.next = none) : it.collect = [] := by
  unfold ColumnIterator.next at h
  unfold ColumnIterator.collect
  cases hc : it.player2_choices with
  | nil => rfl
  | cons b rest =>
    rw [hc] at h
    simp at h

theorem collect_eq_cons_of_next_some {C V : Type} (it it2 : ColumnIterator C V)
    (r : TableRecord C V) (h : it.next = some (r, it2)) :
    it.collect = r :: it2.collect := by
  unfold ColumnIterator.next at h
  cases hc : it.player2_choices with
  | nil =>
    rw [hc] at h
    simp at h
  | cons b rest =>
    rw [hc] at h
    simp only [Option.some.injEq, Prod.mk.injEq] at h
    obtain ⟨hr, hit⟩ := h
    subst hit
    unfold ColumnIterator.collect
    rw [hc]
    simp only [collectFrom]
    rw [← hr]

theorem runSchedule_outputs {C V : Type} (s1 s2 : ColumnIterator C V)
    (sched : List Bool) :
    (runSchedule s1 s2 sched).1 ++ (runSchedule s1 s2 sched).2.2.1.collect =
        s1.collect ∧
      (runSchedule s1 s2 sched).2.1 ++
          (runSchedule s1 s2 sched).2.2.2.collect = s2.collect := by
  induction sched generalizing s1 s2 with
  | nil => exact ⟨rfl, rfl⟩
  | cons b t ih =>
    cases b
    · cases hn : s2.next with
      | none =>
        simp only [runSchedule, hn]
        exact ih s1 s2
      | some rs =>
        obtain ⟨r, s2b⟩ := rs
        obtain ⟨ih1, ih2⟩ := ih s1 s2b
        simp only [runSchedule, hn]
        refine ⟨ih1, ?_⟩
        rw [List.cons_append, ih2, collect_eq_cons_of_next_some s2 s2b r hn]
    · cases hn : s1.next with
      | none =>
        simp only [runSchedule, hn]
        exact ih s1 s2
      | some rs =>
        obtain ⟨r, s1b⟩ := rs
        obtain ⟨ih1, ih2⟩ := ih s1b s2
        simp only [runSchedule, hn]
        refine ⟨?_, ih2⟩
        rw [List.cons_append, ih1, collect_eq_cons_of_next_some s1 s1b r hn]

theorem rowPairStep_foldl {C V : Type}
    (s1 s2 : Option (RowIterator C V)) (sched : List Bool) :
    sched.foldl rowPairStep (s1, s2) =
      (rowStepOpt^[sched.count true] s1,
       rowStepOpt^[sched.count false] s2) := by
  induction sched generalizing s1 s2 with
  | nil => rfl
  | cons b t ih =>
    cases b
    · show List.foldl rowPairStep (rowPairStep (s1, s2) false) t = _
      have hstep : rowPairStep (s1, s2) false = (s1, rowStepOpt s2) := by
        unfold rowPairStep
        simp
      rw [hstep, ih]
      have hct : (false :: t).count true = t.count true := by simp
      have hcf : (false :: t).count false = t.count false + 1 := by simp
      rw [hct, hcf, Function.iterate_succ_apply]
    · show List.foldl rowPairStep (rowPairStep (s1, s2) true) t = _
      have hstep : rowPairStep (s1, s2) true = (rowStepOpt s1, s2) := by
        unfold rowPairStep
        simp
      rw [hstep, ih]
      have hct : (true :: t).count true = t.count true + 1 := by simp
      have hcf : (true :: t).count false = t.count false := by simp
      rw [hct, hcf, Function.iterate_succ_apply]

/-! ## Claim C7 -/

/-- Claim C7: Iterating a game table yields one row per domain choice in
domain order and, within each row, one record per domain choice in domain
order, the records carrying zero-based row/column indices equal to the
positions of their choices in the domain; and iterator cursors are private:
under any interleaving schedule two column iterators produce exactly the
records each would produce alone, and a pair of row iterators advanced by
any schedule ends in the states each reaches by its own number of steps. -/
theorem claim_traversal_spec {C V : Type} [Inhabited C] (gt : GameTable C V) :
    (gt.table_rows =
      gt.choices.enum.map (fun ia => gt.choices.enum.map (fun jb =>
        mkRecordAt gt ia.2 jb.2 (ia.1 : Int) (jb.1 : Int)))) ∧
    gt.table_rows.length = gt.choices.length ∧
    (∀ row ∈ gt.table_rows, row.length = gt.choices.length) ∧
    (∀ s1 s2 : ColumnIterator C V, ∀ sched : List Bool,
      (runSchedule s1 s2 sched).1 ++ (runSchedule s1 s2 sched).2.2.1.collect =
          s1.collect ∧
        (runSchedule s1 s2 sched).2.1 ++
            (runSchedule s1 s2 sched).2.2.2.collect = s2.collect) ∧
    (∀ s1 s2 : Option (RowIterator C V), ∀ sched : List Bool,
      sched.foldl rowPairStep (s1, s2) =
        (rowStepOpt^[sched.count true] s1,
         rowStepOpt^[sched.count false] s2)) := by
  refine ⟨table_rows_eq gt, ?_, ?_, runSchedule_outputs, rowPairStep_foldl⟩
  · rw [table_rows_eq gt, List.length_map, List.enum_length]
  · intro row hrow
    rw [table_rows_eq gt] at hrow
    rcases List.mem_map.mp hrow with ⟨ia, _, rfl⟩
    rw [List.length_map, List.enum_length]

/-! ## Minimax lemmas -/

theorem mem_of_mem_enum {A : Type} {l : List A} {p : Nat × A}
    (h : p ∈ l.enum) : p.2 ∈ l := by
  obtain ⟨i, a⟩ := p
  have h2 : l[i]? = some a := List.mk_mem_enum_iff_getElem?.mp h
  rw [← List.get?_eq_getElem?] at h2
  exact List.get?_mem h2

theorem lt_length_of_mem_enum {A : Type} {l : List A} {p : Nat × A}
    (h : p ∈ l.enum) : p.1 < l.length := by
  obtain ⟨i, a⟩ := p
  have h2 : l[i]? = some a := List.mk_mem_enum_iff_getElem?.mp h
  exact (List.getElem?_eq_some.mp h2).1

theorem full_mixing_ratios_length {V : Type} [CommRing V] (n : Nat)
    (x : List V) : (full_mixing_ratios n x).length = n := by
  unfold full_mixing_ratios
  rw [List.length_map, List.length_range]

theorem full_mixing_ratios_getD {V : Type} [CommRing V] (n : Nat) (x : List V)
    (i : Nat) (hi : i < n) :
    (full_mixing_ratios n x).getD i 0 = ratio_at n x i := by
  unfold full_mixing_ratios List.getD
  rw [List.get?_eq_getElem?, List.getElem?_map, List.getElem?_range hi]
  rfl

theorem map_getD_range_eq_self {V : Type} [CommRing V] (x : List V) :
    (List.range x.length).map (fun i => x.getD i 0) = x := by
  apply List.ext_getElem
  · rw [List.length_map, List.length_range]
  · intro i h1 h2
    rw [List.getElem_map, List.getElem_range]
    unfold List.getD
    rw [List.get?_eq_getElem?, List.getElem?_eq_getElem h2]
    rfl

theorem full_mixing_ratios_sum {V : Type} [CommRing V] (n : Nat) (x : List V)
    (hn : 1 ≤ n) (hx : x.length + 1 = n) :
    (full_mixing_ratios n x).sum = 1 := by
  unfold full_mixing_ratios
  obtain ⟨m, rfl⟩ : ∃ m, n = m + 1 := ⟨n - 1, by omega⟩
  rw [List.range_succ, List.map_append, List.sum_append]
  have h1 : ∀ i ∈ List.range m, ratio_at (m + 1) x i = x.getD i 0 := by
    intro i hi
    rw [List.mem_range] at hi
    unfold ratio_at
    rw [if_pos (by omega)]
  rw [List.map_congr_left h1]
  have h2 : ratio_at (m + 1) x m = 1 - x.sum := by
    unfold ratio_at
    rw [if_neg (by omega)]
  have hm : m = x.length := by omega
  subst hm
  rw [map_getD_range_eq_self, List.map_cons, List.map_nil, h2]
  simp

theorem payoff_expressions_eq_of_dictGet {C V : Type} [DecidableEq C]
    [CommRing V] (cs : List C) (d : List ((C × C) × V)) (p : C → C → V)
    (hd : ∀ my ∈ cs, ∀ their ∈ cs, dictGet d (my, their) = some (p my their))
    (x : List V) :
    payoff_expressions cs d x =
      cs.map (fun their => (cs.enum.map (fun im =>
        p im.2 their * ratio_at cs.length x im.1)).sum) := by
  unfold payoff_expressions
  apply List.map_congr_left
  intro their htheir
  congr 1
  apply List.map_congr_left
  intro im him
  rw [hd im.2 (mem_of_mem_enum him) their htheir]
  rfl

theorem solves_system_spec {C V : Type} [DecidableEq C] [LinearOrderedField V]
    (cs : List C) (d : List ((C × C) × V)) (p : C → C → V)
    (hd : ∀ my ∈ cs, ∀ their ∈ cs, dictGet d (my, their) = some (p my their))
    (hne : cs ≠ []) (x : List V) (hsol : solves_system cs d x) :
    (full_mixing_ratios cs.length x).length = cs.length ∧
    (full_mixing_ratios cs.length x).sum = 1 ∧
    (∀ their ∈ cs, (cs.enum.map (fun im =>
      p im.2 their *
        (full_mixing_ratios cs.length x).getD im.1 0)).sum = 0) := by
  obtain ⟨hlen, hzero⟩ := hsol
  have hn1 : 1 ≤ cs.length := by
    cases cs with
    | nil => exact absurd rfl hne
    | cons a t => simp
  refine ⟨full_mixing_ratios_length _ _,
    full_mixing_ratios_sum cs.length x hn1 hlen, ?_⟩
  intro their htheir
  have he : (cs.enum.map (fun im =>
      p im.2 their * ratio_at cs.length x im.1)).sum = 0 := by
    apply hzero
    rw [payoff_expressions_eq_of_dictGet cs d p hd x]
    exact List.mem_map_of_mem _ htheir
  have hcongr : (cs.enum.map (fun im =>
      p im.2 their *
        (full_mixing_ratios cs.length x).getD im.1 0)).sum =
      (cs.enum.map (fun im =>
        p im.2 their * ratio_at cs.length x im.1)).sum := by
    congr 1
    apply List.map_congr_left
    intro im him
    rw [full_mixing_ratios_getD cs.length x im.1 (lt_length_of_mem_enum him)]
  rw [hcongr]
  exact he

/-! ## Claim C8 -/

/-- Claim C8, amended: For a game built with minimax analysis, any solution
of the linear system `_find_minimax` hands to `linsolve` for a player (that
player's own expected-payoff expressions all set equal to zero, with the
last ratio defined as one minus the sum of the free variables) yields one
mixing ratio per choice in domain order; the ratios sum to 1, and weighting
that player's **own** payoffs by them makes that player's expected payoff
zero — hence identical — against every opponent pure choice.  (The source
solves `expr = 0` for each expression; it does not equalize the opponent's
expected payoffs — see the counterexample.) -/
theorem claim_mixing_ratios_spec {C V : Type} [DecidableEq C]
    [LinearOrderedField V] (gt : GameTable C V) (x y : List V)
    (_hminimax : gt.minimax = true) (hne : gt.choices ≠ [])
    (hx : solves_system gt.choices (gt.construct none).player1_payoffs x)
    (hy : solves_system gt.choices (gt.construct none).player2_payoffs y) :
    ((full_mixing_ratios gt.choices.length x).length = gt.choices.length ∧
     (full_mixing_ratios gt.choices.length x).sum = 1 ∧
     (∀ their ∈ gt.choices, (gt.choices.enum.map (fun im =>
        gt.calc_player1_payoff im.2 their *
          (full_mixing_ratios gt.choices.length x).getD im.1 0)).sum = 0) ∧
     (∀ t1 ∈ gt.choices, ∀ t2 ∈ gt.choices,
        (gt.choices.enum.map (fun im =>
          gt.calc_player1_payoff im.2 t1 *
            (full_mixing_ratios gt.choices.length x).getD im.1 0)).sum =
        (gt.choices.enum.map (fun im =>
          gt.calc_player1_payoff im.2 t2 *
            (full_mixing_ratios gt.choices.length x).getD im.1 0)).sum)) ∧
    ((full_mixing_ratios gt.choices.length y).length = gt.choices.length ∧
     (full_mixing_ratios gt.choices.length y).sum = 1 ∧
     (∀ their ∈ gt.choices, (gt.choices.enum.map (fun im =>
        gt.calc_player2_payoff im.2 their *
          (full_mixing_ratios gt.choices.length y).getD im.1 0)).sum = 0) ∧
     (∀ t1 ∈ gt.choices, ∀ t2 ∈ gt.choices,
        (gt.choices.enum.map (fun im =>
          gt.calc_player2_payoff im.2 t1 *
            (full_mixing_ratios gt.choices.length y).getD im.1 0)).sum =
        (gt.choices.enum.map (fun im =>
          gt.calc_player2_payoff im.2 t2 *
            (full_mixing_ratios gt.choices.length y).getD im.1 0)).sum)) := by
  have hd1 : ∀ my ∈ gt.choices, ∀ their ∈ gt.choices,
      dictGet (gt.construct none).player1_payoffs (my, their) =
        some (gt.calc_player1_payoff my their) := by
    intro my hmy their ht
    exact construct_dictGet_player1 gt none my their hmy ht
  have hd2 : ∀ my ∈ gt.choices, ∀ their ∈ gt.choices,
      dictGet (gt.construct none).player2_payoffs (my, their) =
        some (gt.calc_player2_payoff my their) := by
    intro my hmy their ht
    exact construct_dictGet_player2 gt none their my ht hmy
  obtain ⟨hl1, hs1, hz1⟩ :=
    solves_system_spec gt.choices _ _ hd1 hne x hx
  obtain ⟨hl2, hs2, hz2⟩ :=
    solves_system_spec gt.choices _ _ hd2 hne y hy
  exact ⟨⟨hl1, hs1, hz1, fun t1 h1 t2 h2 => by rw [hz1 t1 h1, hz1 t2 h2]⟩,
    ⟨hl2, hs2, hz2, fun t1 h1 t2 h2 => by rw [hz2 t1 h1, hz2 t2 h2]⟩⟩

theorem mixed_table_dictGet1 : ∀ my ∈ mixed_table.choices,
    ∀ their ∈ mixed_table.choices,
    dictGet mixed_table.player1_payoffs (my, their) =
      some (pennies_payoff my their) := by
  intro my hmy their ht
  exact construct_dictGet_player1
    (GameTable.init "Player 1" "Player 2" pennies_payoff asym_payoff
      ([0, 1] : List Int) true) none my their hmy ht

theorem mixed_table_dictGet2 : ∀ my ∈ mixed_table.choices,
    ∀ their ∈ mixed_table.choices,
    dictGet mixed_table.player2_payoffs (my, their) =
      some (asym_payoff my their) := by
  intro my hmy their ht
  exact construct_dictGet_player2
    (GameTable.init "Player 1" "Player 2" pennies_payoff asym_payoff
      ([0, 1] : List Int) true) none their my ht hmy

theorem mixed_table_system1_solution :
    solves_system mixed_table.choices mixed_table.player1_payoffs
      [(1 : ℚ) / 2] := by
  refine ⟨rfl, ?_⟩
  rw [payoff_expressions_eq_of_dictGet mixed_table.choices
    mixed_table.player1_payoffs pennies_payoff mixed_table_dictGet1]
  rw [show mixed_table.choices = ([0, 1] : List Int) from rfl]
  intro e he
  simp only [List.enum, List.enumFrom, List.map_cons, List.map_nil,
    List.sum_cons, List.sum_nil, List.mem_cons, List.not_mem_nil,
    or_false] at he
  rcases he with rfl | rfl
  · norm_num [pennies_payoff, ratio_at]
  · norm_num [pennies_payoff, ratio_at]

theorem mixed_table_system2_solution :
    solves_system mixed_table.choices mixed_table.player2_payoffs
      [(1 : ℚ) / 2] := by
  refine ⟨rfl, ?_⟩
  rw [payoff_expressions_eq_of_dictGet mixed_table.choices
    mixed_table.player2_payoffs asym_payoff mixed_table_dictGet2]
  rw [show mixed_table.choices = ([0, 1] : List Int) from rfl]
  intro e he
  simp only [List.enum, List.enumFrom, List.map_cons, List.map_nil,
    List.sum_cons, List.sum_nil, List.mem_cons, List.not_mem_nil,
    or_false] at he
  rcases he with rfl | rfl
  · norm_num [asym_payoff, ratio_at]
  · norm_num [asym_payoff, ratio_at]

/-- Claim C8 witness: Both hypotheses of the mixing-ratio theorem hold at the
concrete two-choice minimax game (`x = y = [1/2]` solves both systems), and
the recovered full ratio tuple sums to 1. -/
theorem claim_mixing_ratios_spec_witness :
    (full_mixing_ratios 2 [(1 : ℚ) / 2]).sum = 1 ∧
    (full_mixing_ratios 2 [(1 : ℚ) / 2]).length = 2 := by
  have h := claim_mixing_ratios_spec
    (GameTable.init "Player 1" "Player 2" pennies_payoff asym_payoff
      ([0, 1] : List Int) true)
    [(1 : ℚ) / 2] [(1 : ℚ) / 2] rfl (by decide)
    mixed_table_system1_solution mixed_table_system2_solution
  exact ⟨h.1.2.1, h.1.1⟩

/-- Claim C8 counterexample: In `mixed_table` both player systems have the
unique solution `[1/2]` (so the claim's unique-solution hypothesis holds),
yet weighting the **opponent's** payoffs by player 1's mixing ratios leaves
player 2's expected payoff different across player 2's two pure choices
(`3/2` against choice `0`, `−3/2` against choice `1`): the claim's
opponent-indifference conclusion is false on this code. -/
theorem claim_mixing_opponent_indifference_counterexample :
    solves_system mixed_table.choices mixed_table.player1_payoffs
      [(1 : ℚ) / 2] ∧
    (∀ x : List ℚ,
      solves_system mixed_table.choices mixed_table.player1_payoffs x →
        x = [(1 : ℚ) / 2]) ∧
    solves_system mixed_table.choices mixed_table.player2_payoffs
      [(1 : ℚ) / 2] ∧
    (∀ y : List ℚ,
      solves_system mixed_table.choices mixed_table.player2_payoffs y →
        y = [(1 : ℚ) / 2]) ∧
    ¬ ((mixed_table.choices.enum.map (fun im =>
          asym_payoff 0 im.2 *
            (full_mixing_ratios 2 [(1 : ℚ) / 2]).getD im.1 0)).sum =
        (mixed_table.choices.enum.map (fun im =>
          asym_payoff 1 im.2 *
            (full_mixing_ratios 2 [(1 : ℚ) / 2]).getD im.1 0)).sum) := by
  have hfm : full_mixing_ratios 2 [(1 : ℚ) / 2] = [1 / 2, 1 / 2] := by
    unfold full_mixing_ratios
    rw [show List.range 2 = [0, 1] from rfl]
    simp only [List.map_cons, List.map_nil, ratio_at]
    norm_num
  refine ⟨mixed_table_system1_solution, ?_, mixed_table_system2_solution,
    ?_, ?_⟩
  · intro x hx
    obtain ⟨hlen, hz⟩ := hx
    have hlen2 : x.length = 1 := by
      have h2 : mixed_table.choices.length = 2 := rfl
      omega
    obtain ⟨a, rfl⟩ : ∃ a, x = [a] := by
      cases x with
      | nil => simp at hlen2
      | cons a t =>
        cases t with
        | nil => exact ⟨a, rfl⟩
        | cons b t2 => simp at hlen2
    rw [payoff_expressions_eq_of_dictGet mixed_table.choices
      mixed_table.player1_payoffs pennies_payoff mixed_table_dictGet1] at hz
    have he0 := hz _ (List.mem_map_of_mem _
      (show (0 : Int) ∈ mixed_table.choices by decide))
    have ha : a = 1 / 2 := by
      rw [show mixed_table.choices = ([0, 1] : List Int) from rfl] at he0
      simp only [List.enum, List.enumFrom, List.map_cons, List.map_nil,
        List.sum_cons, List.sum_nil, ratio_at, pennies_payoff] at he0
      norm_num at he0
      linarith
    rw [ha]
  · intro y hy
    obtain ⟨hlen, hz⟩ := hy
    have hlen2 : y.length = 1 := by
      have h2 : mixed_table.choices.length = 2 := rfl
      omega
    obtain ⟨a, rfl⟩ : ∃ a, y = [a] := by
      cases y with
      | nil => simp at hlen2
      | cons a t =>
        cases t with
        | nil => exact ⟨a, rfl⟩
        | cons b t2 => simp at hlen2
    rw [payoff_expressions_eq_of_dictGet mixed_table.choices
      mixed_table.player2_payoffs asym_payoff mixed_table_dictGet2] at hz
    have he0 := hz _ (List.mem_map_of_mem _
      (show (0 : Int) ∈ mixed_table.choices by decide))
    have ha : a = 1 / 2 := by
      rw [show mixed_table.choices = ([0, 1] : List Int) from rfl] at he0
      simp only [List.enum, List.enumFrom, List.map_cons, List.map_nil,
        List.sum_cons, List.sum_nil, ratio_at, asym_payoff] at he0
      norm_num at he0
      linarith
    rw [ha]
  · rw [hfm, show mixed_table.choices = ([0, 1] : List Int) from rfl]
    simp only [List.enum, List.enumFrom, List.map_cons, List.map_nil,
      List.sum_cons, List.sum_nil, asym_payoff]
    norm_num

end GameTableModel
